import Mathlib

set_option maxRecDepth 10000

/-!
Verification development for the near-sdk-rs secure randomness module
(near-sdk/src/random.rs) and the example lottery contract
(examples/lottery/src/lib.rs).

The Rust code is shallowly embedded: machine integers become Nat/Int with
explicit reduction modulo 2 to the width where overflow matters; the
external SHA-256 primitive (the sha2 crate) is implemented byte-for-byte
so that seed derivation can be evaluated on concrete inputs; the external
ChaCha20 stream cipher core (rand_chacha) is modelled as an abstract
deterministic word stream keyed by the derived seed, since no claim
depends on the concrete ChaCha20 keystream values, only on the stream
being a deterministic function of the seed; the rand crate's uniform
integer sampling (gen_range), slice shuffle and Standard distributions
are embedded from their rand 0.8 sources because the repository's
methods delegate to them directly.
-/

namespace NearRandom

/-! ### SHA-256 (the sha2 crate dependency), byte level, executable -/

/-- 32-bit right rotation. -/
def rotr (n x : Nat) : Nat := ((x >>> n) ||| (x <<< (32 - n))) % 2 ^ 32

/-- SHA-256 choice function. -/
def shaCh (x y z : Nat) : Nat := (x &&& y) ^^^ ((x ^^^ 0xffffffff) &&& z)

/-- SHA-256 majority function. -/
def shaMaj (x y z : Nat) : Nat := (x &&& y) ^^^ (x &&& z) ^^^ (y &&& z)

/-- SHA-256 big sigma 0. -/
def bsig0 (x : Nat) : Nat := rotr 2 x ^^^ rotr 13 x ^^^ rotr 22 x

/-- SHA-256 big sigma 1. -/
def bsig1 (x : Nat) : Nat := rotr 6 x ^^^ rotr 11 x ^^^ rotr 25 x

/-- SHA-256 small sigma 0. -/
def ssig0 (x : Nat) : Nat := rotr 7 x ^^^ rotr 18 x ^^^ (x >>> 3)

/-- SHA-256 small sigma 1. -/
def ssig1 (x : Nat) : Nat := rotr 17 x ^^^ rotr 19 x ^^^ (x >>> 10)

/-- SHA-256 round constants. -/
def shaK : List Nat := [
  1116352408, 1899447441, 3049323471, 3921009573, 961987163, 1508970993,
  2453635748, 2870763221, 3624381080, 310598401, 607225278, 1426881987,
  1925078388, 2162078206, 2614888103, 3248222580, 3835390401, 4022224774,
  264347078, 604807628, 770255983, 1249150122, 1555081692, 1996064986,
  2554220882, 2821834349, 2952996808, 3210313671, 3336571891, 3584528711,
  113926993, 338241895, 666307205, 773529912, 1294757372, 1396182291,
  1695183700, 1986661051, 2177026350, 2456956037, 2730485921, 2820302411,
  3259730800, 3345764771, 3516065817, 3600352804, 4094571909, 275423344,
  430227734, 506948616, 659060556, 883997877, 958139571, 1322822218,
  1537002063, 1747873779, 1955562222, 2024104815, 2227730452, 2361852424,
  2428436474, 2756734187, 3204031479, 3329325298]

/-- The eight SHA-256 working variables. -/
structure ShaState where
  a : Nat
  b : Nat
  c : Nat
  d : Nat
  e : Nat
  f : Nat
  g : Nat
  h : Nat

/-- SHA-256 initial hash value. -/
def shaInit : ShaState :=
  ⟨1779033703, 3144134277, 1013904242, 2773480762, 1359893119, 2600822924, 528734635, 1541459225⟩

/-- One SHA-256 compression round; the pair carries the round constant and
the message-schedule word. -/
def shaRound (st : ShaState) (kw : Nat × Nat) : ShaState :=
  let t1 := (st.h + bsig1 st.e + shaCh st.e st.f st.g + kw.1 + kw.2) % 2 ^ 32
  let t2 := (bsig0 st.a + shaMaj st.a st.b st.c) % 2 ^ 32
  ⟨(t1 + t2) % 2 ^ 32, st.a, st.b, st.c, (st.d + t1) % 2 ^ 32, st.e, st.f, st.g⟩

/-- Runs the 64 compression rounds over the zipped list of round constants
and schedule words. -/
def shaRounds : List (Nat × Nat) → ShaState → ShaState
  | [], st => st
  | kw :: rest, st => shaRounds rest (shaRound st kw)

/-- Extends a 16-word window into the next n message-schedule words. -/
def shaSchedule : Nat → List Nat → List Nat
  | 0, _ => []
  | n + 1, win =>
    let w := (ssig1 (win.getD 14 0) + win.getD 9 0 + ssig0 (win.getD 1 0) + win.getD 0 0) % 2 ^ 32
    w :: shaSchedule n (win.drop 1 ++ [w])

/-- Big-endian bytes to 32-bit words, four bytes at a time. -/
def bytesToWordsBE : List Nat → List Nat
  | b0 :: b1 :: b2 :: b3 :: rest =>
    (b0 * 2 ^ 24 + b1 * 2 ^ 16 + b2 * 2 ^ 8 + b3) :: bytesToWordsBE rest
  | _ => []

/-- A 32-bit word as four big-endian bytes. -/
def wordBytesBE (w : Nat) : List Nat :=
  [w / 2 ^ 24 % 256, w / 2 ^ 16 % 256, w / 2 ^ 8 % 256, w % 256]

/-- Compresses one 16-word block into the running hash state. -/
def shaCompress (block16 : List Nat) (st : ShaState) : ShaState :=
  let ws := block16 ++ shaSchedule 48 block16
  let t := shaRounds (shaK.zip ws) st
  ⟨(st.a + t.a) % 2 ^ 32, (st.b + t.b) % 2 ^ 32, (st.c + t.c) % 2 ^ 32, (st.d + t.d) % 2 ^ 32,
   (st.e + t.e) % 2 ^ 32, (st.f + t.f) % 2 ^ 32, (st.g + t.g) % 2 ^ 32, (st.h + t.h) % 2 ^ 32⟩

/-- Compresses the given number of 64-byte blocks taken from the front of
the (padded) byte list. -/
def shaBlocks : Nat → List Nat → ShaState → ShaState
  | 0, _, st => st
  | n + 1, bytes, st =>
    shaBlocks n (bytes.drop 64) (shaCompress (bytesToWordsBE (bytes.take 64)) st)

/-- A u64 as eight big-endian bytes. -/
def toBE8 (n : Nat) : List Nat :=
  [n / 2 ^ 56 % 256, n / 2 ^ 48 % 256, n / 2 ^ 40 % 256, n / 2 ^ 32 % 256,
   n / 2 ^ 24 % 256, n / 2 ^ 16 % 256, n / 2 ^ 8 % 256, n % 256]

/-- SHA-256 message padding: append 0x80, zero bytes up to 56 mod 64, then
the bit length as a big-endian u64. -/
def padMsg (ms : List Nat) : List Nat :=
  ms ++ [0x80] ++ List.replicate ((119 - ms.length % 64) % 64) 0 ++ toBE8 (8 * ms.length % 2 ^ 64)

/-- SHA-256 of a byte sequence, as a 32-byte digest. -/
def sha256 (ms : List Nat) : List Nat :=
  let padded := padMsg ms
  let st := shaBlocks (padded.length / 64) padded shaInit
  wordBytesBE st.a ++ wordBytesBE st.b ++ wordBytesBE st.c ++ wordBytesBE st.d ++
  wordBytesBE st.e ++ wordBytesBE st.f ++ wordBytesBE st.g ++ wordBytesBE st.h

/-! ### Host environment and seed derivation (random.rs lines 98-159) -/

/-- The host-provided execution context read through near-sdk env calls.
Account identifiers are byte sequences; block timestamp and prepaid gas
are u64 values. -/
structure Env where
  random_seed : List Nat
  current_account_id : List Nat
  predecessor_account_id : List Nat
  block_timestamp : Nat
  prepaid_gas : Nat

/-- A u64 as eight little-endian bytes (Rust to_le_bytes). -/
def toLE8 (n : Nat) : List Nat :=
  [n % 256, n / 2 ^ 8 % 256, n / 2 ^ 16 % 256, n / 2 ^ 24 % 256,
   n / 2 ^ 32 % 256, n / 2 ^ 40 % 256, n / 2 ^ 48 % 256, n / 2 ^ 56 % 256]

/-- Incremental Sha256 hasher state: the bytes absorbed so far. -/
def Hasher : Type := List Nat

/-- Sha256::new(). -/
def Hasher.new : Hasher := []

/-- hasher.update(data): absorb more bytes. -/
def Hasher.update (h : Hasher) (data : List Nat) : Hasher := List.append h data

/-- hasher.finalize(): the digest of everything absorbed. -/
def Hasher.finalize (h : Hasher) : List Nat := sha256 h

/-- The fixed domain-separation tag, the ASCII bytes of
near-sdk-secure-rng-v1 (random.rs line 147). -/
def domainTag : List Nat :=
  [110, 101, 97, 114, 45, 115, 100, 107, 45, 115, 101, 99, 117, 114, 101, 45, 114, 110, 103, 45, 118, 49]

/-- SecureRng::get_block_index (random.rs lines 130-134): despite the
Result type it unconditionally returns Ok(env::block_timestamp()). -/
def get_block_index (env : Env) : Except Unit Nat :=
  Except.ok env.block_timestamp

/-- SecureRng::get_transaction_entropy (random.rs lines 108-126): hashes
current account id, predecessor account id, the block index (when
available) as little-endian bytes, and the prepaid gas as little-endian
bytes. -/
def get_transaction_entropy (env : Env) : List Nat :=
  let h := Hasher.new
  let h := h.update env.current_account_id
  let h := h.update env.predecessor_account_id
  let h := match get_block_index env with
    | Except.ok block_index => h.update (toLE8 block_index)
    | Except.error _ => h
  let h := h.update (toLE8 env.prepaid_gas)
  h.finalize

/-- SecureRng::generate_seed_with_entropy (random.rs lines 137-152):
hashes the block VRF randomness, then the provided entropy, then the
domain tag. -/
def generate_seed_with_entropy (env : Env) (additional_entropy : List Nat) : List Nat :=
  let h := Hasher.new
  let h := h.update env.random_seed
  let h := h.update additional_entropy
  let h := h.update domainTag
  h.finalize

/-- SecureRng::generate_secure_seed (random.rs lines 99-105). -/
def generate_secure_seed (env : Env) : List Nat :=
  generate_seed_with_entropy env (get_transaction_entropy env)

/-! ### The generator core

The inner ChaCha20Rng is modelled as an abstract deterministic word
stream: a keystream function (the external cipher) maps a seed to an
infinite sequence of u32 words, and the generator state is the seed's
stream together with the current position. Every claim below is about
the wrapper code, not the concrete ChaCha20 values, so the keystream
function is a parameter throughout. -/

/-- The external stream cipher: seed bytes to an infinite u32 word
sequence. -/
def Keystream : Type := List Nat → Nat → Nat

/-- Generator state: word stream plus position (random.rs line 47,
the inner ChaCha20Rng). -/
structure SecureRng where
  stream : Nat → Nat
  pos : Nat

/-- ChaCha20Rng::from_seed. -/
def SecureRng.from_seed (ks : Keystream) (seed : List Nat) : SecureRng :=
  ⟨ks seed, 0⟩

/-- SecureRng::new (random.rs lines 68-73). -/
def SecureRng.new (ks : Keystream) (env : Env) : SecureRng :=
  SecureRng.from_seed ks (generate_secure_seed env)

/-- SecureRng::with_entropy (random.rs lines 91-96). -/
def SecureRng.with_entropy (ks : Keystream) (env : Env) (additional_entropy : List Nat) : SecureRng :=
  SecureRng.from_seed ks (generate_seed_with_entropy env additional_entropy)

/-- SecureRng::reseed (random.rs lines 157-159). -/
def SecureRng.reseed (ks : Keystream) (env : Env) (_r : SecureRng) : SecureRng :=
  SecureRng.from_seed ks (generate_secure_seed env)

/-- RngCore::next_u32 (random.rs lines 282-284): the next stream word. -/
def next_u32 (r : SecureRng) : Nat × SecureRng :=
  (r.stream r.pos % 2 ^ 32, ⟨r.stream, r.pos + 1⟩)

/-- RngCore::next_u64 (random.rs lines 286-288): two consecutive words,
low word first. -/
def next_u64 (r : SecureRng) : Nat × SecureRng :=
  (r.stream r.pos % 2 ^ 32 + r.stream (r.pos + 1) % 2 ^ 32 * 2 ^ 32, ⟨r.stream, r.pos + 2⟩)

/-- A u32 word as four little-endian bytes. -/
def wordLE4 (w : Nat) : List Nat := [w % 256, w / 2 ^ 8 % 256, w / 2 ^ 16 % 256, w / 2 ^ 24 % 256]

/-- RngCore::fill_bytes (random.rs lines 290-292): consecutive stream
words serialized little-endian, truncated to the requested length. -/
def fill_bytes (r : SecureRng) (n : Nat) : List Nat × SecureRng :=
  let k := (n + 3) / 4
  (((List.range k).flatMap (fun i => wordLE4 (r.stream (r.pos + i) % 2 ^ 32))).take n,
   ⟨r.stream, r.pos + k⟩)

/-! ### Outcomes of fallible draws

Rust reports range misuse by panicking inside the rand crate; the
rejection-sampling loop is unbounded, so the embedding adds explicit
fuel. The err constructor exists only to state the spec's claimed
InvalidRange error result; no embedded code path produces it. -/

/-- The panic sites reachable from the embedded code, by message. -/
inductive PanicKind where
  /-- Rng::gen_range: cannot sample empty range -/
  | emptyRange
  /-- UniformSampler::sample_single: low >= high -/
  | singleLowGeHigh
  /-- UniformSampler::sample_single_inclusive: low > high -/
  | inclusiveLowGtHigh
  /-- slice index out of bounds -/
  | indexOutOfBounds
  deriving DecidableEq

/-- The error taxonomy the specification claims for range misuse. -/
inductive RngError where
  | invalidRange
  deriving DecidableEq

/-- Outcome of a fallible draw. -/
inductive Res (α : Type) where
  | ok (a : α)
  | panicked (k : PanicKind)
  | outOfFuel
  | err (e : RngError)

/-- Outcome discriminant, used to compare outcomes whose payload holds a
generator state (which is not decidably comparable). -/
inductive ResTag where
  | okT
  | panickedT (k : PanicKind)
  | outOfFuelT
  | errT (e : RngError)
  deriving DecidableEq

/-- The discriminant of an outcome. -/
def Res.tag : Res α → ResTag
  | .ok _ => .okT
  | .panicked k => .panickedT k
  | .outOfFuel => .outOfFuelT
  | .err e => .errT e

/-- Map over a successful outcome; aborts propagate (in Rust, panics
propagate on their own). -/
def Res.mapOk (f : α → β) : Res α → Res β
  | .ok a => .ok (f a)
  | .panicked k => .panicked k
  | .outOfFuel => .outOfFuel
  | .err e => .err e

/-- Sequence a successful outcome into the next fallible step. -/
def Res.bindOk (x : Res α) (f : α → Res β) : Res β :=
  match x with
  | .ok a => f a
  | .panicked k => .panicked k
  | .outOfFuel => .outOfFuel
  | .err e => .err e

/-! ### rand 0.8 uniform integer sampling (UniformInt), embedded

gen_range(low..high) asserts the range is non-empty and delegates to
UniformSampler::sample_single, which delegates to
sample_single_inclusive(low, high - 1): widening multiply of a fresh
generator word against the range size, rejecting biased low parts
against a precomputed zone. Parameters: w is the bit width of the
sampled type, wl the width of the large type used internally (u32 for
types up to 32 bits, u64 above). -/

/-- One large word from the generator: rng.gen of u32 or u64. -/
def genWord (wl : Nat) (r : SecureRng) : Nat × SecureRng :=
  if wl ≤ 32 then next_u32 r else next_u64 r

/-- Number of significant binary digits of a value, with explicit fuel
(64 suffices for every value a sampler computes); Rust's leading_zeros
is the type width minus this. -/
def bitLenAux : Nat → Nat → Nat
  | 0, _ => 0
  | fuel + 1, n => if n = 0 then 0 else bitLenAux fuel (n / 2) + 1

/-- The rejection zone: for types at most 16 bits rand uses the exact
modulus form, otherwise the shifted approximation
(range << range.leading_zeros()).wrapping_sub(1) in the large type. -/
def zoneFor (w wl range : Nat) : Nat :=
  if 2 ^ w - 1 ≤ 65535 then
    (2 ^ wl - 1) - ((2 ^ wl - 1 - range + 1) % range)
  else
    range * 2 ^ (wl - bitLenAux 64 range) % 2 ^ wl - 1

/-- The rejection loop: draw a large word v, accept when the low part of
v * range fits below the zone, returning the high part. -/
def rejLoopHi (wl range zone : Nat) : Nat → SecureRng → Res (Nat × SecureRng)
  | 0, _ => .outOfFuel
  | fuel + 1, r =>
    let vr := genWord wl r
    if vr.1 * range % 2 ^ wl ≤ zone then .ok (vr.1 * range / 2 ^ wl, vr.2)
    else rejLoopHi wl range zone fuel vr.2

/-- UniformInt::sample_single_inclusive for an unsigned type of width w. -/
def sample_single_inclusive_u (w wl low high : Nat) (r : SecureRng) (fuel : Nat) :
    Res (Nat × SecureRng) :=
  if low ≤ high then
    let range := (high - low + 1) % 2 ^ w
    if range = 0 then
      let vr := genWord wl r
      .ok (vr.1 % 2 ^ w, vr.2)
    else
      (rejLoopHi wl range (zoneFor w wl range) fuel r).mapOk
        (fun p => ((low + p.1) % 2 ^ w, p.2))
  else .panicked .inclusiveLowGtHigh

/-- UniformInt::sample_single for an unsigned type of width w. -/
def sample_single_u (w wl low high : Nat) (r : SecureRng) (fuel : Nat) : Res (Nat × SecureRng) :=
  if low < high then sample_single_inclusive_u w wl low (high - 1) r fuel
  else .panicked .singleLowGeHigh

/-- Rng::gen_range over a half-open range of an unsigned type. -/
def gen_range_u (w wl low high : Nat) (r : SecureRng) (fuel : Nat) : Res (Nat × SecureRng) :=
  if low < high then sample_single_u w wl low high r fuel
  else .panicked .emptyRange

/-- Rng::gen_range over an inclusive range of an unsigned type (used by
the shuffle). -/
def gen_range_inclusive_u (w wl low high : Nat) (r : SecureRng) (fuel : Nat) :
    Res (Nat × SecureRng) :=
  if low ≤ high then sample_single_inclusive_u w wl low high r fuel
  else .panicked .emptyRange

/-- Two's-complement representative of a signed value of width w. -/
def toUnsigned (w : Nat) (x : Int) : Nat := (x % (2 ^ w : Int)).toNat

/-- Signed value of width w from its two's-complement representative. -/
def toSigned (w : Nat) (n : Nat) : Int :=
  if n < 2 ^ (w - 1) then (n : Int) else (n : Int) - 2 ^ w

/-- UniformInt::sample_single_inclusive for a signed type of width w:
the range size is computed by wrapping subtraction in the unsigned
representation, and the accepted offset is wrap-added onto low. -/
def sample_single_inclusive_i (w wl : Nat) (low high : Int) (r : SecureRng) (fuel : Nat) :
    Res (Int × SecureRng) :=
  if low ≤ high then
    let range := toUnsigned w (high - low + 1)
    if range = 0 then
      let vr := genWord wl r
      .ok (toSigned w (vr.1 % 2 ^ w), vr.2)
    else
      (rejLoopHi wl range (zoneFor w wl range) fuel r).mapOk
        (fun p => (toSigned w ((toUnsigned w low + p.1) % 2 ^ w), p.2))
  else .panicked .inclusiveLowGtHigh

/-- UniformInt::sample_single for a signed type of width w. -/
def sample_single_i (w wl : Nat) (low high : Int) (r : SecureRng) (fuel : Nat) :
    Res (Int × SecureRng) :=
  if low < high then sample_single_inclusive_i w wl low (high - 1) r fuel
  else .panicked .singleLowGeHigh

/-- Rng::gen_range over a half-open range of a signed type. -/
def gen_range_i (w wl : Nat) (low high : Int) (r : SecureRng) (fuel : Nat) :
    Res (Int × SecureRng) :=
  if low < high then sample_single_i w wl low high r fuel
  else .panicked .emptyRange

/-! ### The SecureRng range adapters (random.rs lines 189-221) -/

/-- SecureRng::u8. -/
def SecureRng.u8 (r : SecureRng) (low high fuel : Nat) : Res (Nat × SecureRng) :=
  gen_range_u 8 32 low high r fuel

/-- SecureRng::u16. -/
def SecureRng.u16 (r : SecureRng) (low high fuel : Nat) : Res (Nat × SecureRng) :=
  gen_range_u 16 32 low high r fuel

/-- SecureRng::u32. -/
def SecureRng.u32 (r : SecureRng) (low high fuel : Nat) : Res (Nat × SecureRng) :=
  gen_range_u 32 32 low high r fuel

/-- SecureRng::u64. -/
def SecureRng.u64 (r : SecureRng) (low high fuel : Nat) : Res (Nat × SecureRng) :=
  gen_range_u 64 64 low high r fuel

/-- SecureRng::usize, on a 64-bit target. -/
def SecureRng.usize (r : SecureRng) (low high fuel : Nat) : Res (Nat × SecureRng) :=
  gen_range_u 64 64 low high r fuel

/-- SecureRng::i32. -/
def SecureRng.i32 (r : SecureRng) (low high : Int) (fuel : Nat) : Res (Int × SecureRng) :=
  gen_range_i 32 32 low high r fuel

/-- SecureRng::i64. -/
def SecureRng.i64 (r : SecureRng) (low high : Int) (fuel : Nat) : Res (Int × SecureRng) :=
  gen_range_i 64 64 low high r fuel

/-- SecureRng::bool (random.rs lines 171-173): rand's Standard bool is
the sign bit of a fresh i32, i.e. whether the next word has its top bit
set. -/
def SecureRng.bool (r : SecureRng) : Bool × SecureRng :=
  let vr := next_u32 r
  (decide (2 ^ 31 ≤ vr.1), vr.2)

/-! ### Sampling algorithms (random.rs lines 244-267 and 316-342) -/

/-- Swap two positions of a list; identity when either index is out of
bounds (Rust slice::swap would panic there, but every embedded call
site keeps both indices in bounds). -/
def listSwap {α : Type} (l : List α) (i j : Nat) : List α :=
  match l.get? i, l.get? j with
  | some a, some b => (l.set i b).set j a
  | _, _ => l

/-- The Fisher-Yates loop of rand's SliceRandom::shuffle: for i from
len - 1 down to 1, swap position i with gen_range(0..=i). -/
def shuffleGo {α : Type} (fuel : Nat) : Nat → List α → SecureRng → Res (List α × SecureRng)
  | 0, l, r => .ok (l, r)
  | i + 1, l, r =>
    (gen_range_inclusive_u 64 64 0 (i + 1) r fuel).bindOk
      (fun p => shuffleGo fuel i (listSwap l (i + 1) p.1) p.2)

/-- SecureRng::shuffle (random.rs lines 244-247). -/
def SecureRng.shuffle {α : Type} (r : SecureRng) (l : List α) (fuel : Nat) :
    Res (List α × SecureRng) :=
  shuffleGo fuel (l.length - 1) l r

/-- SecureRng::choice (random.rs lines 260-267). -/
def SecureRng.choice {α : Type} (r : SecureRng) (l : List α) (fuel : Nat) :
    Res (Option α × SecureRng) :=
  if l.isEmpty then .ok (none, r)
  else
    (SecureRng.usize r 0 l.length fuel).bindOk
      (fun p =>
        match l.get? p.1 with
        | some x => .ok (some x, p.2)
        | none => .panicked .indexOutOfBounds)

/-- Rng::flip_coin (random.rs lines 317-319). -/
def SecureRng.flip_coin (r : SecureRng) : Bool × SecureRng :=
  SecureRng.bool r

/-- Rng::roll_die (random.rs lines 322-327): explicit zero guard, then
u8 range 1..(sides + 1); the u8 addition wraps at sides = 255 on release
builds (a debug build would abort on the add overflow instead — the
call fails either way). -/
def SecureRng.roll_die (r : SecureRng) (sides fuel : Nat) : Res (Nat × SecureRng) :=
  if sides = 0 then .ok (0, r)
  else SecureRng.u8 r 1 ((sides + 1) % 2 ^ 8) fuel

/-- Rng::percentage (random.rs lines 329-331). -/
def SecureRng.percentage (r : SecureRng) (fuel : Nat) : Res (Nat × SecureRng) :=
  SecureRng.u8 r 0 101 fuel

/-- Rng::sample_multiple (random.rs lines 333-341): all elements when
the population is smaller than the request, otherwise the first count
positions of a shuffled index vector. -/
def SecureRng.sample_multiple {α : Type} (r : SecureRng) (l : List α) (count fuel : Nat) :
    Res (List α × SecureRng) :=
  if l.length < count then .ok (l, r)
  else
    (SecureRng.shuffle r (List.range l.length) fuel).mapOk
      (fun p => ((p.1.take count).filterMap l.get?, p.2))

/-! ### Draw scripts, for the determinism claim -/

/-- One generator operation: the RngCore methods and the typed
adapters. -/
inductive DrawOp where
  | nextU32
  | nextU64
  | fillBytes (n : Nat)
  | coin
  | u8r (low high : Nat)
  | u16r (low high : Nat)
  | u32r (low high : Nat)
  | u64r (low high : Nat)
  | usizer (low high : Nat)
  | i32r (low high : Int)
  | i64r (low high : Int)
  | die (sides : Nat)
  | percent

/-- Observable output of one operation. -/
inductive DrawOut where
  | nat (n : Nat)
  | int (i : Int)
  | bytes (bs : List Nat)
  | bit (b : Bool)
  | panicked (k : PanicKind)
  | outOfFuel
  | err (e : RngError)
  deriving DecidableEq

/-- Lift a fallible Nat draw into an observable output and follow-on
state. -/
def liftRes : Res (Nat × SecureRng) → DrawOut × Option SecureRng
  | .ok (v, r') => (.nat v, some r')
  | .panicked k => (.panicked k, none)
  | .outOfFuel => (.outOfFuel, none)
  | .err e => (.err e, none)

/-- Lift a fallible Int draw into an observable output and follow-on
state. -/
def liftResI : Res (Int × SecureRng) → DrawOut × Option SecureRng
  | .ok (v, r') => (.int v, some r')
  | .panicked k => (.panicked k, none)
  | .outOfFuel => (.outOfFuel, none)
  | .err e => (.err e, none)

/-- Run one operation. -/
def runOp (op : DrawOp) (r : SecureRng) (fuel : Nat) : DrawOut × Option SecureRng :=
  match op with
  | .nextU32 => let vr := next_u32 r; (.nat vr.1, some vr.2)
  | .nextU64 => let vr := next_u64 r; (.nat vr.1, some vr.2)
  | .fillBytes n => let vr := fill_bytes r n; (.bytes vr.1, some vr.2)
  | .coin => let vr := SecureRng.bool r; (.bit vr.1, some vr.2)
  | .u8r a b => liftRes (SecureRng.u8 r a b fuel)
  | .u16r a b => liftRes (SecureRng.u16 r a b fuel)
  | .u32r a b => liftRes (SecureRng.u32 r a b fuel)
  | .u64r a b => liftRes (SecureRng.u64 r a b fuel)
  | .usizer a b => liftRes (SecureRng.usize r a b fuel)
  | .i32r a b => liftResI (SecureRng.i32 r a b fuel)
  | .i64r a b => liftResI (SecureRng.i64 r a b fuel)
  | .die n => liftRes (SecureRng.roll_die r n fuel)
  | .percent => liftRes (SecureRng.percentage r fuel)

/-- Run a script of operations, stopping after an abort. -/
def runOps : List DrawOp → SecureRng → Nat → List DrawOut
  | [], _, _ => []
  | op :: ops, r, fuel =>
    match runOp op r fuel with
    | (out, some r') => out :: runOps ops r' fuel
    | (out, none) => [out]

/-! ### The example lottery contract (examples/lottery/src/lib.rs) -/

/-- Contract state: participant names (byte strings) and the stored
winner. -/
structure LotteryContract where
  participants : List (List Nat)
  winner : Option (List Nat)

/-- LotteryContract::new (lib.rs lines 15-20). -/
def LotteryContract.new : LotteryContract := ⟨[], none⟩

/-- LotteryContract::enter_lottery (lib.rs lines 24-26). -/
def LotteryContract.enter_lottery (c : LotteryContract) (name : List Nat) : LotteryContract :=
  ⟨c.participants ++ [name], c.winner⟩

/-- LotteryContract::pick_winner (lib.rs lines 29-38): early return None
on an empty list; otherwise a fresh SecureRng picks an index in
0..participants.len(), the winner field is set to that participant and
the same value is returned. -/
def LotteryContract.pick_winner (ks : Keystream) (env : Env) (c : LotteryContract)
    (fuel : Nat) : Res (Option (List Nat) × LotteryContract) :=
  if c.participants.isEmpty then .ok (none, c)
  else
    (SecureRng.usize (SecureRng.new ks env) 0 c.participants.length fuel).mapOk
      (fun p =>
        let w := c.participants.get? p.1
        (w, ⟨c.participants, w⟩))

/-! ### Concrete fixtures used by counterexamples and witnesses -/

/-- A concrete environment: all-zero VRF seed, one-byte account ids,
zero timestamp and gas. -/
def env0 : Env := ⟨List.replicate 32 0, [97], [98], 0, 0⟩

/-- A concrete generator whose word stream is constantly zero. -/
def rng0 : SecureRng := ⟨fun _ => 0, 0⟩

/-! ### SHA-256 correctness vectors (FIPS 180-4 examples) -/

theorem sha256_empty_vector :
    sha256 [] = [227, 176, 196, 66, 152, 252, 28, 20, 154, 251, 244, 200, 153, 111, 185, 36,
      39, 174, 65, 228, 100, 155, 147, 76, 164, 149, 153, 27, 120, 82, 184, 85] := by
  decide

theorem sha256_abc_vector :
    sha256 [97, 98, 99] = [186, 120, 22, 191, 143, 1, 207, 234, 65, 65, 64, 222, 93, 174,
      34, 35, 176, 3, 97, 163, 150, 23, 122, 156, 180, 16, 255, 97, 242, 0, 21, 173] := by
  decide

/-! ### Helper lemmas about the uniform sampler -/

theorem genWord_fst_lt {wl : Nat} (hwl : wl = 32 ∨ wl = 64) (r : SecureRng) :
    (genWord wl r).1 < 2 ^ wl := by
  rcases hwl with h | h <;> subst h
  · simpa [genWord, next_u32] using Nat.mod_lt (r.stream r.pos) (by norm_num)
  · have h1 : r.stream r.pos % 2 ^ 32 < 2 ^ 32 := Nat.mod_lt _ (by norm_num)
    have h2 : r.stream (r.pos + 1) % 2 ^ 32 < 2 ^ 32 := Nat.mod_lt _ (by norm_num)
    simp only [genWord, next_u64]
    norm_num
    omega

theorem rejLoopHi_ok_lt {wl range zone : Nat} (hwl : wl = 32 ∨ wl = 64) (hr : 0 < range) :
    ∀ (fuel : Nat) (r : SecureRng) {hi : Nat} {r' : SecureRng},
      rejLoopHi wl range zone fuel r = .ok (hi, r') → hi < range := by
  intro fuel
  induction fuel with
  | zero => intro r hi r' h; simp [rejLoopHi] at h
  | succ n ih =>
    intro r hi r' h
    simp only [rejLoopHi] at h
    split at h
    · simp only [Res.ok.injEq, Prod.mk.injEq] at h
      obtain ⟨h1, _⟩ := h
      subst h1
      have hv : (genWord wl r).1 < 2 ^ wl := genWord_fst_lt hwl r
      exact Nat.div_lt_of_lt_mul ((Nat.mul_lt_mul_right hr).mpr hv)
    · exact ih _ h

theorem rejLoopHi_cases (wl range zone : Nat) :
    ∀ (fuel : Nat) (r : SecureRng),
      (∃ v r', rejLoopHi wl range zone fuel r = .ok (v, r')) ∨
      rejLoopHi wl range zone fuel r = .outOfFuel := by
  intro fuel
  induction fuel with
  | zero => intro r; right; rfl
  | succ n ih =>
    intro r
    simp only [rejLoopHi]
    split
    · exact Or.inl ⟨_, _, rfl⟩
    · exact ih _

theorem sample_single_inclusive_u_ok {w wl low high fuel : Nat} {r r' : SecureRng} {v : Nat}
    (hwl : wl = 32 ∨ wl = 64) (hlh : low ≤ high) (hh : high < 2 ^ w)
    (h : sample_single_inclusive_u w wl low high r fuel = .ok (v, r')) :
    low ≤ v ∧ v ≤ high := by
  have hwpos : 0 < 2 ^ w := Nat.pos_pow_of_pos w (by norm_num)
  simp only [sample_single_inclusive_u, if_pos hlh] at h
  by_cases hrange : (high - low + 1) % 2 ^ w = 0
  · rw [if_pos hrange] at h
    have hdvd : 2 ^ w ∣ high - low + 1 := Nat.dvd_of_mod_eq_zero hrange
    have hge : 2 ^ w ≤ high - low + 1 := Nat.le_of_dvd (by omega) hdvd
    have hlow : low = 0 := by omega
    simp only [Res.ok.injEq, Prod.mk.injEq] at h
    obtain ⟨h1, _⟩ := h
    subst h1
    have := Nat.mod_lt (genWord wl r).1 hwpos
    omega
  · rw [if_neg hrange] at h
    have hlt : high - low + 1 < 2 ^ w := by
      rcases Nat.lt_or_ge (high - low + 1) (2 ^ w) with hc | hc
      · exact hc
      · have : high - low + 1 = 2 ^ w := by omega
        rw [this, Nat.mod_self] at hrange
        exact absurd rfl hrange
    rw [Nat.mod_eq_of_lt hlt] at h
    rcases rejLoopHi_cases wl (high - low + 1) (zoneFor w wl (high - low + 1)) fuel r with
      ⟨hi, r'', heq⟩ | hfuel
    · rw [heq] at h
      simp only [Res.mapOk, Res.ok.injEq, Prod.mk.injEq] at h
      obtain ⟨h1, _⟩ := h
      subst h1
      have hhi : hi < high - low + 1 :=
        rejLoopHi_ok_lt hwl (by omega) fuel r heq
      rw [Nat.mod_eq_of_lt (by omega)]
      omega
    · rw [hfuel] at h
      simp [Res.mapOk] at h

theorem sample_single_inclusive_u_ne_panicked {w wl low high fuel : Nat} {r : SecureRng}
    (hlh : low ≤ high) (k : PanicKind) :
    sample_single_inclusive_u w wl low high r fuel ≠ .panicked k := by
  simp only [sample_single_inclusive_u, if_pos hlh]
  split
  · simp
  · rcases rejLoopHi_cases wl ((high - low + 1) % 2 ^ w)
        (zoneFor w wl ((high - low + 1) % 2 ^ w)) fuel r with ⟨v, r', hok⟩ | hfuel
    · rw [hok]; simp [Res.mapOk]
    · rw [hfuel]; simp [Res.mapOk]

theorem sample_single_inclusive_u_ne_err {w wl low high fuel : Nat} {r : SecureRng}
    (hlh : low ≤ high) (e : RngError) :
    sample_single_inclusive_u w wl low high r fuel ≠ .err e := by
  simp only [sample_single_inclusive_u, if_pos hlh]
  split
  · simp
  · rcases rejLoopHi_cases wl ((high - low + 1) % 2 ^ w)
        (zoneFor w wl ((high - low + 1) % 2 ^ w)) fuel r with ⟨v, r', hok⟩ | hfuel
    · rw [hok]; simp [Res.mapOk]
    · rw [hfuel]; simp [Res.mapOk]

theorem gen_range_u_empty {w wl low high fuel : Nat} {r : SecureRng} (h : high ≤ low) :
    gen_range_u w wl low high r fuel = .panicked .emptyRange := by
  unfold gen_range_u
  rw [if_neg (by omega)]

theorem gen_range_u_ok {w wl low high fuel : Nat} {r r' : SecureRng} {v : Nat}
    (hwl : wl = 32 ∨ wl = 64) (hh : high < 2 ^ w)
    (h : gen_range_u w wl low high r fuel = .ok (v, r')) :
    low ≤ v ∧ v < high := by
  unfold gen_range_u at h
  split at h
  case isTrue hlt =>
    unfold sample_single_u at h
    rw [if_pos hlt] at h
    have := sample_single_inclusive_u_ok hwl (by omega) (by omega) h
    omega
  case isFalse => exact absurd h (by simp)

theorem gen_range_u_ne_panicked {w wl low high fuel : Nat} {r : SecureRng}
    (hlt : low < high) (k : PanicKind) :
    gen_range_u w wl low high r fuel ≠ .panicked k := by
  unfold gen_range_u sample_single_u
  rw [if_pos hlt, if_pos hlt]
  exact sample_single_inclusive_u_ne_panicked (by omega) k

theorem gen_range_inclusive_u_empty {w wl low high fuel : Nat} {r : SecureRng} (h : high < low) :
    gen_range_inclusive_u w wl low high r fuel = .panicked .emptyRange := by
  unfold gen_range_inclusive_u
  rw [if_neg (by omega)]

theorem gen_range_inclusive_u_ok {w wl low high fuel : Nat} {r r' : SecureRng} {v : Nat}
    (hwl : wl = 32 ∨ wl = 64) (hle : low ≤ high) (hh : high < 2 ^ w)
    (h : gen_range_inclusive_u w wl low high r fuel = .ok (v, r')) :
    low ≤ v ∧ v ≤ high := by
  unfold gen_range_inclusive_u at h
  rw [if_pos hle] at h
  exact sample_single_inclusive_u_ok hwl hle hh h

theorem gen_range_inclusive_u_ne_panicked {w wl low high fuel : Nat} {r : SecureRng}
    (hle : low ≤ high) (k : PanicKind) :
    gen_range_inclusive_u w wl low high r fuel ≠ .panicked k := by
  unfold gen_range_inclusive_u
  rw [if_pos hle]
  exact sample_single_inclusive_u_ne_panicked hle k

theorem toUnsigned_cast (w : Nat) (x : Int) : (toUnsigned w x : Int) = x % (2 ^ w : Int) := by
  unfold toUnsigned
  exact Int.toNat_of_nonneg (Int.emod_nonneg x (by positivity))

theorem sample_single_inclusive_i_ok {w wl fuel : Nat} {low high v : Int} {r r' : SecureRng}
    (hwl : wl = 32 ∨ wl = 64) (hw : 0 < w) (hlh : low ≤ high)
    (hlo : -(2 ^ (w - 1) : Int) ≤ low) (hhi : high < 2 ^ (w - 1))
    (h : sample_single_inclusive_i w wl low high r fuel = .ok (v, r')) :
    low ≤ v ∧ v ≤ high := by
  have hP : ((2 : Int) ^ w) = 2 ^ (w - 1) * 2 := by
    rw [← pow_succ]
    congr 1
    omega
  have hPpos : (0 : Int) < 2 ^ (w - 1) := by positivity
  have hwcast : (((2 : Nat) ^ w : Nat) : Int) = (2 : Int) ^ w := by push_cast; ring
  have hw1cast : (((2 : Nat) ^ (w - 1) : Nat) : Int) = (2 : Int) ^ (w - 1) := by push_cast; ring
  have hD1 : (1 : Int) ≤ high - low + 1 := by omega
  have hD2 : high - low + 1 ≤ (2 : Int) ^ w := by omega
  simp only [sample_single_inclusive_i, if_pos hlh] at h
  by_cases hrange : toUnsigned w (high - low + 1) = 0
  · rw [if_pos hrange] at h
    have hmod0 : (high - low + 1) % (2 ^ w : Int) = 0 := by
      have h0 := toUnsigned_cast w (high - low + 1)
      rw [hrange] at h0
      omega
    have hdvd : (2 ^ w : Int) ∣ high - low + 1 := Int.dvd_of_emod_eq_zero hmod0
    have hge : (2 ^ w : Int) ≤ high - low + 1 := Int.le_of_dvd (by omega) hdvd
    have hlow : low = -(2 ^ (w - 1)) := by omega
    have hhigh : high = 2 ^ (w - 1) - 1 := by omega
    simp only [Res.ok.injEq, Prod.mk.injEq] at h
    obtain ⟨h1, _⟩ := h
    subst h1
    have hm : (genWord wl r).1 % 2 ^ w < 2 ^ w := Nat.mod_lt _ (Nat.pos_pow_of_pos w (by norm_num))
    unfold toSigned
    split
    next hc =>
      have : ((genWord wl r).1 % 2 ^ w : Int) < 2 ^ (w - 1) := by
        rw [← hw1cast]
        exact_mod_cast hc
      constructor <;> omega
    next hc =>
      have hcI : ((genWord wl r).1 % 2 ^ w : Int) ≥ 2 ^ (w - 1) := by
        rw [← hw1cast]
        exact_mod_cast Nat.le_of_not_lt hc
      have hmI : ((genWord wl r).1 % 2 ^ w : Int) < 2 ^ w := by
        rw [← hwcast]
        exact_mod_cast hm
      constructor <;> omega
  · rw [if_neg hrange] at h
    have hrangeI := toUnsigned_cast w (high - low + 1)
    have hDlt : high - low + 1 < (2 : Int) ^ w := by
      rcases lt_or_ge (high - low + 1) ((2 : Int) ^ w) with hc | hc
      · exact hc
      · have hEq : high - low + 1 = (2 : Int) ^ w := by omega
        rw [hEq, Int.emod_self] at hrangeI
        have : toUnsigned w (high - low + 1) = 0 := by
          unfold toUnsigned
          rw [hEq, Int.emod_self]
          rfl
        exact absurd this hrange
    have hmodD : (high - low + 1) % (2 ^ w : Int) = high - low + 1 :=
      Int.emod_eq_of_lt (by omega) hDlt
    rw [hmodD] at hrangeI
    rcases rejLoopHi_cases wl (toUnsigned w (high - low + 1))
        (zoneFor w wl (toUnsigned w (high - low + 1))) fuel r with ⟨hi, r'', heq⟩ | hfuel
    · rw [heq] at h
      simp only [Res.mapOk, Res.ok.injEq, Prod.mk.injEq] at h
      obtain ⟨h1, _⟩ := h
      subst h1
      have hipos : 0 < toUnsigned w (high - low + 1) := Nat.pos_of_ne_zero hrange
      have hhib : hi < toUnsigned w (high - low + 1) :=
        rejLoopHi_ok_lt hwl hipos fuel r heq
      have hhiI : (hi : Int) < high - low + 1 := by
        rw [← hrangeI]
        exact_mod_cast hhib
      have huI : (toUnsigned w low : Int) = low % (2 ^ w : Int) := toUnsigned_cast w low
      have hiNN : (0 : Int) ≤ (hi : Int) := Int.ofNat_nonneg hi
      rcases le_or_lt 0 low with hlpos | hlneg
      · have hlmod : low % (2 ^ w : Int) = low := Int.emod_eq_of_lt hlpos (by omega)
        rw [hlmod] at huI
        have hsum : toUnsigned w low + hi < 2 ^ w := by
          have : (toUnsigned w low + hi : Int) < (2 : Int) ^ w := by omega
          rw [← hwcast] at this
          exact_mod_cast this
        rw [Nat.mod_eq_of_lt hsum]
        unfold toSigned
        split
        next hc =>
          push_cast
          omega
        next hc =>
          exfalso
          have : (toUnsigned w low + hi : Int) < 2 ^ (w - 1) := by omega
          rw [← hw1cast] at this
          have := this.trans_le' (le_refl _)
          exact hc (by exact_mod_cast this)
      · have hlmod : low % (2 ^ w : Int) = low + 2 ^ w := by
          have h1 : (low + 2 ^ w * 1) % (2 ^ w : Int) = low % (2 ^ w : Int) :=
            Int.add_mul_emod_self_left low (2 ^ w) 1
          have h2 : (low + 2 ^ w * 1) % (2 ^ w : Int) = low + 2 ^ w * 1 :=
            Int.emod_eq_of_lt (by omega) (by omega)
          omega
        rw [hlmod] at huI
        rcases lt_or_ge ((low : Int) + hi) 0 with hneg | hpos
        · have hsum : toUnsigned w low + hi < 2 ^ w := by
            have : (toUnsigned w low + hi : Int) < (2 : Int) ^ w := by omega
            rw [← hwcast] at this
            exact_mod_cast this
          rw [Nat.mod_eq_of_lt hsum]
          unfold toSigned
          split
          next hc =>
            exfalso
            have hcI : (toUnsigned w low + hi : Int) < 2 ^ (w - 1) := by
              rw [← hw1cast]
              exact_mod_cast hc
            push_cast at hcI
            omega
          next hc =>
            push_cast
            omega
        · have hsumge : 2 ^ w ≤ toUnsigned w low + hi := by
            have : (2 : Int) ^ w ≤ (toUnsigned w low + hi : Int) := by omega
            rw [← hwcast] at this
            exact_mod_cast this
          have hsumlt : toUnsigned w low + hi < 2 ^ w + 2 ^ w := by
            have : (toUnsigned w low + hi : Int) < (2 : Int) ^ w + 2 ^ w := by omega
            rw [← hwcast] at this
            exact_mod_cast this
          have hmodsub : (toUnsigned w low + hi) % 2 ^ w = toUnsigned w low + hi - 2 ^ w := by
            rw [Nat.mod_eq_sub_mod hsumge]
            exact Nat.mod_eq_of_lt (by omega)
          rw [hmodsub]
          have hsubI : ((toUnsigned w low + hi - 2 ^ w : Nat) : Int) = low + hi := by
            rw [Nat.cast_sub hsumge]
            push_cast
            omega
          unfold toSigned
          split
          next hc =>
            rw [hsubI]
            omega
          next hc =>
            exfalso
            have : (toUnsigned w low + hi - 2 ^ w : Nat) < 2 ^ (w - 1) := by
              have : ((toUnsigned w low + hi - 2 ^ w : Nat) : Int) < 2 ^ (w - 1) := by
                rw [hsubI]
                omega
              rw [← hw1cast] at this
              exact_mod_cast this
            exact hc this
    · rw [hfuel] at h
      simp [Res.mapOk] at h

theorem sample_single_inclusive_i_ne_panicked {w wl fuel : Nat} {low high : Int} {r : SecureRng}
    (hlh : low ≤ high) (k : PanicKind) :
    sample_single_inclusive_i w wl low high r fuel ≠ .panicked k := by
  simp only [sample_single_inclusive_i, if_pos hlh]
  split
  · simp
  · rcases rejLoopHi_cases wl (toUnsigned w (high - low + 1))
        (zoneFor w wl (toUnsigned w (high - low + 1))) fuel r with ⟨v, r', hok⟩ | hfuel
    · rw [hok]; simp [Res.mapOk]
    · rw [hfuel]; simp [Res.mapOk]

theorem gen_range_i_empty {w wl fuel : Nat} {low high : Int} {r : SecureRng} (h : high ≤ low) :
    gen_range_i w wl low high r fuel = .panicked .emptyRange := by
  unfold gen_range_i
  rw [if_neg (by omega)]

theorem gen_range_i_ok {w wl fuel : Nat} {low high v : Int} {r r' : SecureRng}
    (hwl : wl = 32 ∨ wl = 64) (hw : 0 < w)
    (hlo : -(2 ^ (w - 1) : Int) ≤ low) (hhi : high ≤ 2 ^ (w - 1))
    (h : gen_range_i w wl low high r fuel = .ok (v, r')) :
    low ≤ v ∧ v < high := by
  unfold gen_range_i at h
  split at h
  case isTrue hlt =>
    unfold sample_single_i at h
    rw [if_pos hlt] at h
    have := sample_single_inclusive_i_ok hwl hw (by omega) hlo (by omega) h
    omega
  case isFalse => exact absurd h (by simp)

theorem gen_range_i_ne_panicked {w wl fuel : Nat} {low high : Int} {r : SecureRng}
    (hlt : low < high) (k : PanicKind) :
    gen_range_i w wl low high r fuel ≠ .panicked k := by
  unfold gen_range_i sample_single_i
  rw [if_pos hlt, if_pos hlt]
  exact sample_single_inclusive_i_ne_panicked (by omega) k

/-! ### Swaps and permutations -/

theorem set_of_get? {α : Type} {l : List α} {i : Nat} {a : α} (h : l.get? i = some a) :
    l.set i a = l := by
  induction l generalizing i with
  | nil => simp at h
  | cons x xs ih =>
    cases i with
    | zero => simp_all
    | succ n =>
      simp only [List.get?_cons_succ] at h
      simp [ih h]

theorem set_perm_cons {α : Type} {l : List α} {j : Nat} {b : α} (hj : l.get? j = some b)
    (a : α) : List.Perm (b :: l.set j a) (a :: l) := by
  induction l generalizing j with
  | nil => simp at hj
  | cons x xs ih =>
    cases j with
    | zero =>
      simp only [List.get?_cons_zero, Option.some.injEq] at hj
      subst hj
      simpa using List.Perm.swap a x xs
    | succ n =>
      simp only [List.get?_cons_succ] at hj
      have step1 : List.Perm (b :: x :: xs.set n a) (x :: b :: xs.set n a) :=
        List.Perm.swap x b (xs.set n a)
      have step2 : List.Perm (x :: b :: xs.set n a) (x :: a :: xs) :=
        List.Perm.cons x (ih hj)
      have step3 : List.Perm (x :: a :: xs) (a :: x :: xs) := List.Perm.swap a x xs
      simpa using (step1.trans step2).trans step3

theorem listSwap_length {α : Type} (l : List α) (i j : Nat) :
    (listSwap l i j).length = l.length := by
  unfold listSwap
  rcases hgi : l.get? i with _ | a <;> rcases hgj : l.get? j with _ | b <;> simp

theorem listSwap_comm {α : Type} (l : List α) {i j : Nat} (hij : i ≠ j) :
    listSwap l i j = listSwap l j i := by
  unfold listSwap
  rcases hgi : l.get? i with _ | a <;> rcases hgj : l.get? j with _ | b
  · rfl
  · rfl
  · rfl
  · exact List.set_comm b a l hij

theorem listSwap_perm_lt {α : Type} :
    ∀ (i j : Nat) (l : List α), i < j → j < l.length → List.Perm (listSwap l i j) l := by
  intro i
  induction i with
  | zero =>
    intro j l hij hj
    cases l with
    | nil => simp at hj
    | cons x xs =>
      cases j with
      | zero => omega
      | succ n =>
        have hn : n < xs.length := by simpa using hj
        obtain ⟨b, hb⟩ : ∃ b, xs.get? n = some b := ⟨_, List.get?_eq_get hn⟩
        unfold listSwap
        simp only [List.get?_cons_zero, List.get?_cons_succ, hb]
        simp only [List.set_cons_zero, List.set_cons_succ]
        exact set_perm_cons hb x
  | succ m ih =>
    intro j l hij hj
    cases l with
    | nil => simp at hj
    | cons x xs =>
      cases j with
      | zero => omega
      | succ n =>
        have hn : n < xs.length := by simpa using hj
        have hmn : m < n := by omega
        have hm : m < xs.length := by omega
        obtain ⟨a, ha⟩ : ∃ a, xs.get? m = some a := ⟨_, List.get?_eq_get hm⟩
        obtain ⟨b, hb⟩ : ∃ b, xs.get? n = some b := ⟨_, List.get?_eq_get hn⟩
        have hxs : List.Perm (listSwap xs m n) xs := ih n xs hmn hn
        unfold listSwap at hxs ⊢
        simp only [List.get?_cons_succ, ha, hb] at hxs ⊢
        simp only [List.set_cons_succ]
        exact List.Perm.cons x hxs

theorem listSwap_perm {α : Type} (l : List α) (i j : Nat) (hi : i < l.length)
    (hj : j < l.length) : List.Perm (listSwap l i j) l := by
  rcases Nat.lt_trichotomy i j with hlt | heq | hgt
  · exact listSwap_perm_lt i j l hlt hj
  · subst heq
    obtain ⟨a, ha⟩ : ∃ a, l.get? i = some a := ⟨_, List.get?_eq_get hi⟩
    unfold listSwap
    simp only [ha]
    rw [List.set_set, set_of_get? ha]
  · rw [listSwap_comm l (by omega)]
    exact listSwap_perm_lt j i l hgt hi

/-! ### Shuffle and sampling lemmas -/

theorem shuffleGo_ok_perm {α : Type} (fuel : Nat) :
    ∀ (i : Nat) (l : List α) (r : SecureRng) (out : List α) (r' : SecureRng),
      i < l.length → l.length < 2 ^ 64 →
      shuffleGo fuel i l r = .ok (out, r') → List.Perm out l := by
  intro i
  induction i with
  | zero =>
    intro l r out r' _ _ h
    unfold shuffleGo at h
    simp only [Res.ok.injEq, Prod.mk.injEq] at h
    obtain ⟨h1, _⟩ := h
    subst h1
    exact List.Perm.refl l
  | succ n ih =>
    intro l r out r' hi h64 h
    unfold shuffleGo at h
    rcases hres : gen_range_inclusive_u 64 64 0 (n + 1) r fuel with p | k | _ | e
    · rw [hres] at h
      simp only [Res.bindOk] at h
      obtain ⟨j, r''⟩ := p
      have hj : j ≤ n + 1 :=
        (gen_range_inclusive_u_ok (Or.inr rfl) (by omega) (by omega) hres).2
      have hperm : List.Perm out (listSwap l (n + 1) j) :=
        ih (listSwap l (n + 1) j) r'' out r'
          (by rw [listSwap_length]; omega) (by rw [listSwap_length]; omega) h
      exact hperm.trans (listSwap_perm l (n + 1) j hi (by omega))
    · rw [hres] at h
      simp [Res.bindOk] at h
    · rw [hres] at h
      simp [Res.bindOk] at h
    · rw [hres] at h
      simp [Res.bindOk] at h

theorem shuffle_ok_perm {α : Type} {l out : List α} {r r' : SecureRng} {fuel : Nat}
    (h64 : l.length < 2 ^ 64) (h : SecureRng.shuffle r l fuel = .ok (out, r')) :
    List.Perm out l := by
  unfold SecureRng.shuffle at h
  rcases Nat.eq_zero_or_pos l.length with h0 | hpos
  · rw [h0] at h
    unfold shuffleGo at h
    simp only [Res.ok.injEq, Prod.mk.injEq] at h
    obtain ⟨h1, _⟩ := h
    subst h1
    exact List.Perm.refl l
  · exact shuffleGo_ok_perm fuel (l.length - 1) l r out r' (by omega) h64 h

theorem filterMap_get?_range {α : Type} (l : List α) :
    (List.range l.length).filterMap l.get? = l := by
  induction l with
  | nil => simp
  | cons x xs ih =>
    rw [List.length_cons, List.range_succ_eq_map]
    rw [List.filterMap_cons]
    simp only [List.get?_cons_zero]
    rw [List.filterMap_map]
    have hcomp : ((x :: xs).get? ∘ Nat.succ) = xs.get? := by
      funext n
      simp
    rw [hcomp, ih]

theorem filterMap_get?_length {α : Type} (l : List α) :
    ∀ idxs : List Nat, (∀ i ∈ idxs, i < l.length) →
      (idxs.filterMap l.get?).length = idxs.length := by
  intro idxs
  induction idxs with
  | nil => simp
  | cons i rest ih =>
    intro hb
    have hi : i < l.length := hb i (by simp)
    obtain ⟨a, ha⟩ : ∃ a, l.get? i = some a := ⟨_, List.get?_eq_get hi⟩
    rw [List.filterMap_cons, ha]
    simp only [List.length_cons]
    rw [ih (fun x hx => hb x (by simp [hx]))]

theorem perm_filterMap_get? {α : Type} {l : List α} {idxs : List Nat}
    (hp : List.Perm idxs (List.range l.length)) :
    List.Perm (idxs.filterMap l.get?) l := by
  have h := List.Perm.filterMap l.get? hp
  rwa [filterMap_get?_range] at h

theorem get?_mem_of_some {α : Type} {l : List α} {i : Nat} {a : α} (h : l.get? i = some a) :
    a ∈ l := by
  induction l generalizing i with
  | nil => simp at h
  | cons x xs ih =>
    cases i with
    | zero => simp_all
    | succ n =>
      simp only [List.get?_cons_succ] at h
      exact List.mem_cons_of_mem x (ih h)

/-! ### Claim C1 -/

/-- Claim C1 (counterexample): at a concrete environment, neither
construction hashes the flat ordered concatenation of the Entropy Record
components. The default construction's seed differs from
SHA-256(VRF || contract id || caller id || timestamp LE || gas LE || tag),
and the with_entropy seed differs from the same concatenation with the
extra entropy inserted before the tag. -/
theorem c1_seed_not_flat_concat :
    ((generate_secure_seed env0 ==
      sha256 (env0.random_seed ++ env0.current_account_id ++ env0.predecessor_account_id ++
        toLE8 env0.block_timestamp ++ toLE8 env0.prepaid_gas ++ domainTag)) = false) ∧
    ((generate_seed_with_entropy env0 [120] ==
      sha256 (env0.random_seed ++ env0.current_account_id ++ env0.predecessor_account_id ++
        toLE8 env0.block_timestamp ++ toLE8 env0.prepaid_gas ++ [120] ++ domainTag)) = false) := by
  constructor
  · decide
  · decide

/-- Claim C1 (amended): every 32-byte seed is the SHA-256 digest of the
VRF randomness, then an entropy block, then the fixed domain tag: the
with_entropy construction hashes the caller-supplied bytes directly in
the entropy position, while the default construction first condenses
contract id, caller id, 8-byte little-endian timestamp and 8-byte
little-endian prepaid gas into an inner SHA-256 digest and hashes that;
the flat components are never concatenated directly into the outer
hash. -/
theorem c1_seed_derivation_structure (env : Env) (extra : List Nat) :
    generate_seed_with_entropy env extra = sha256 (env.random_seed ++ extra ++ domainTag) ∧
    generate_secure_seed env =
      sha256 (env.random_seed ++
        sha256 (env.current_account_id ++ env.predecessor_account_id ++
          toLE8 env.block_timestamp ++ toLE8 env.prepaid_gas) ++ domainTag) := by
  constructor
  · simp [generate_seed_with_entropy, Hasher.update, Hasher.new, Hasher.finalize,
      List.append_assoc]
  · simp [generate_secure_seed, generate_seed_with_entropy, get_transaction_entropy,
      get_block_index, Hasher.update, Hasher.new, Hasher.finalize, List.append_assoc]

/-! ### Claim C2 -/

/-- Claim C2: the generator stream is deterministic and keyed solely by the
derived 32-byte seed: whenever two with_entropy constructions derive the
same seed (in particular, identical environment and identical extra
entropy), every script of draws (RngCore methods and the typed adapters)
produces identical output sequences. -/
theorem c2_determinism (ks : Keystream) (env1 env2 : Env) (e1 e2 : List Nat)
    (ops : List DrawOp) (fuel : Nat)
    (hseed : generate_seed_with_entropy env1 e1 = generate_seed_with_entropy env2 e2) :
    runOps ops (SecureRng.with_entropy ks env1 e1) fuel =
      runOps ops (SecureRng.with_entropy ks env2 e2) fuel := by
  unfold SecureRng.with_entropy
  rw [hseed]

/-- Witness for C2 at a concrete keystream, environment, entropy and
script. -/
theorem c2_determinism_witness :
    runOps [DrawOp.nextU32, DrawOp.u8r 0 10, DrawOp.die 6, DrawOp.percent, DrawOp.coin]
        (SecureRng.with_entropy (fun _ _ => 0) env0 [1, 2, 3]) 5 =
      runOps [DrawOp.nextU32, DrawOp.u8r 0 10, DrawOp.die 6, DrawOp.percent, DrawOp.coin]
        (SecureRng.with_entropy (fun _ _ => 0) env0 [1, 2, 3]) 5 :=
  c2_determinism (fun _ _ => 0) env0 env0 [1, 2, 3] [1, 2, 3]
    [DrawOp.nextU32, DrawOp.u8r 0 10, DrawOp.die 6, DrawOp.percent, DrawOp.coin] 5 rfl

/-! ### Claim C3 -/

/-- Claim C3 (counterexample): sample_range(5, 5) on the u8 adapter aborts
with the rand crate's empty-range panic; the outcome is not an
InvalidRange error value reported to the caller. -/
theorem c3_range_panic_counterexample :
    (SecureRng.u8 rng0 5 5 10).tag = ResTag.panickedT PanicKind.emptyRange ∧
    (((SecureRng.u8 rng0 5 5 10).tag == ResTag.errT RngError.invalidRange) = false) := by
  constructor
  · rfl
  · rfl

/-- Claim C3 (amended): for every integer width offered (u8, u16, u32,
u64, usize, i32, i64), the half-open range sample aborts in the
empty-range panic exactly when high <= low — it is a panic, not a
caller-visible InvalidRange error and not a clamp — and whenever
low < high the call never panics and every successful draw v satisfies
low <= v < high. -/
theorem c3_range_adapters (r : SecureRng) (fuel : Nat) :
    ((∀ low high : Nat, high ≤ low →
        SecureRng.u8 r low high fuel = Res.panicked PanicKind.emptyRange) ∧
     (∀ low high : Nat, low < high → ∀ k, SecureRng.u8 r low high fuel ≠ Res.panicked k) ∧
     (∀ (low high v : Nat) (r' : SecureRng), high < 2 ^ 8 →
        SecureRng.u8 r low high fuel = Res.ok (v, r') → low ≤ v ∧ v < high)) ∧
    ((∀ low high : Nat, high ≤ low →
        SecureRng.u16 r low high fuel = Res.panicked PanicKind.emptyRange) ∧
     (∀ low high : Nat, low < high → ∀ k, SecureRng.u16 r low high fuel ≠ Res.panicked k) ∧
     (∀ (low high v : Nat) (r' : SecureRng), high < 2 ^ 16 →
        SecureRng.u16 r low high fuel = Res.ok (v, r') → low ≤ v ∧ v < high)) ∧
    ((∀ low high : Nat, high ≤ low →
        SecureRng.u32 r low high fuel = Res.panicked PanicKind.emptyRange) ∧
     (∀ low high : Nat, low < high → ∀ k, SecureRng.u32 r low high fuel ≠ Res.panicked k) ∧
     (∀ (low high v : Nat) (r' : SecureRng), high < 2 ^ 32 →
        SecureRng.u32 r low high fuel = Res.ok (v, r') → low ≤ v ∧ v < high)) ∧
    ((∀ low high : Nat, high ≤ low →
        SecureRng.u64 r low high fuel = Res.panicked PanicKind.emptyRange) ∧
     (∀ low high : Nat, low < high → ∀ k, SecureRng.u64 r low high fuel ≠ Res.panicked k) ∧
     (∀ (low high v : Nat) (r' : SecureRng), high < 2 ^ 64 →
        SecureRng.u64 r low high fuel = Res.ok (v, r') → low ≤ v ∧ v < high)) ∧
    ((∀ low high : Nat, high ≤ low →
        SecureRng.usize r low high fuel = Res.panicked PanicKind.emptyRange) ∧
     (∀ low high : Nat, low < high → ∀ k, SecureRng.usize r low high fuel ≠ Res.panicked k) ∧
     (∀ (low high v : Nat) (r' : SecureRng), high < 2 ^ 64 →
        SecureRng.usize r low high fuel = Res.ok (v, r') → low ≤ v ∧ v < high)) ∧
    ((∀ low high : Int, high ≤ low →
        SecureRng.i32 r low high fuel = Res.panicked PanicKind.emptyRange) ∧
     (∀ low high : Int, low < high → ∀ k, SecureRng.i32 r low high fuel ≠ Res.panicked k) ∧
     (∀ (low high v : Int) (r' : SecureRng), -(2 ^ 31) ≤ low → high ≤ 2 ^ 31 →
        SecureRng.i32 r low high fuel = Res.ok (v, r') → low ≤ v ∧ v < high)) ∧
    ((∀ low high : Int, high ≤ low →
        SecureRng.i64 r low high fuel = Res.panicked PanicKind.emptyRange) ∧
     (∀ low high : Int, low < high → ∀ k, SecureRng.i64 r low high fuel ≠ Res.panicked k) ∧
     (∀ (low high v : Int) (r' : SecureRng), -(2 ^ 63) ≤ low → high ≤ 2 ^ 63 →
        SecureRng.i64 r low high fuel = Res.ok (v, r') → low ≤ v ∧ v < high)) := by
  refine ⟨⟨?_, ?_, ?_⟩, ⟨?_, ?_, ?_⟩, ⟨?_, ?_, ?_⟩, ⟨?_, ?_, ?_⟩, ⟨?_, ?_, ?_⟩,
    ⟨?_, ?_, ?_⟩, ⟨?_, ?_, ?_⟩⟩
  · exact fun low high h => gen_range_u_empty h
  · exact fun low high h k => gen_range_u_ne_panicked h k
  · exact fun low high v r' hh hok => gen_range_u_ok (Or.inl rfl) hh hok
  · exact fun low high h => gen_range_u_empty h
  · exact fun low high h k => gen_range_u_ne_panicked h k
  · exact fun low high v r' hh hok => gen_range_u_ok (Or.inl rfl) hh hok
  · exact fun low high h => gen_range_u_empty h
  · exact fun low high h k => gen_range_u_ne_panicked h k
  · exact fun low high v r' hh hok => gen_range_u_ok (Or.inl rfl) hh hok
  · exact fun low high h => gen_range_u_empty h
  · exact fun low high h k => gen_range_u_ne_panicked h k
  · exact fun low high v r' hh hok => gen_range_u_ok (Or.inr rfl) hh hok
  · exact fun low high h => gen_range_u_empty h
  · exact fun low high h k => gen_range_u_ne_panicked h k
  · exact fun low high v r' hh hok => gen_range_u_ok (Or.inr rfl) hh hok
  · exact fun low high h => gen_range_i_empty h
  · exact fun low high h k => gen_range_i_ne_panicked h k
  · exact fun low high v r' hlo hhi hok =>
      gen_range_i_ok (Or.inl rfl) (by norm_num) (by norm_num at hlo ⊢; omega)
        (by norm_num at hhi ⊢; omega) hok
  · exact fun low high h => gen_range_i_empty h
  · exact fun low high h k => gen_range_i_ne_panicked h k
  · exact fun low high v r' hlo hhi hok =>
      gen_range_i_ok (Or.inr rfl) (by norm_num) (by norm_num at hlo ⊢; omega)
        (by norm_num at hhi ⊢; omega) hok

/-- Witness for C3: a draw of u8 in 2..5 on a concrete zero stream yields
the in-range value 2, and sample_range(5, 5) is the empty-range panic. -/
theorem c3_range_adapters_witness :
    ((2 : Nat) ≤ 2 ∧ (2 : Nat) < 5) ∧
    SecureRng.u8 rng0 5 5 10 = Res.panicked PanicKind.emptyRange := by
  constructor
  · exact (c3_range_adapters rng0 10).1.2.2 2 5 2 ⟨fun _ => 0, 1⟩ (by norm_num) rfl
  · exact (c3_range_adapters rng0 10).1.1 5 5 (le_refl 5)

/-! ### Claim C4 -/

/-- Claim C4: roll_die(0) returns the sentinel 0 through the explicit
guard without failing, and on valid side counts the roll is
sample_range(1, sides + 1); but at sides = 255 the u8 upper bound
sides + 1 wraps to 0, so the call aborts with the empty-range panic
instead of returning a value in [1, 255] — contradicting the method's
own documented contract (1..=sides for a u8 side count). -/
theorem c4_roll_die_overflow :
    SecureRng.roll_die rng0 0 10 = Res.ok (0, rng0) ∧
    SecureRng.roll_die rng0 6 10 = Res.ok (1, ⟨rng0.stream, 1⟩) ∧
    (SecureRng.roll_die rng0 255 10).tag = ResTag.panickedT PanicKind.emptyRange ∧
    (((SecureRng.roll_die rng0 255 10).tag == ResTag.okT) = false) := by
  exact ⟨rfl, rfl, rfl, rfl⟩

/-! ### Claim C5 -/

/-- Claim C5: a successful sample_multiple returns exactly
min(count, len) elements, drawn at pairwise distinct in-bounds indices;
when count exceeds the population it returns all elements in original
order, and when count equals the population the result is a permutation
of the whole population. -/
theorem c5_sample_multiple (α : Type) (l : List α) (count fuel : Nat) (r r' : SecureRng)
    (out : List α) (h64 : l.length < 2 ^ 64)
    (h : SecureRng.sample_multiple r l count fuel = Res.ok (out, r')) :
    out.length = min count l.length ∧
    (∃ idxs : List Nat, idxs.Nodup ∧ (∀ i ∈ idxs, i < l.length) ∧
        out = idxs.filterMap l.get?) ∧
    (l.length < count → out = l) ∧
    (count = l.length → List.Perm out l) := by
  unfold SecureRng.sample_multiple at h
  by_cases hlt : l.length < count
  · rw [if_pos hlt] at h
    simp only [Res.ok.injEq, Prod.mk.injEq] at h
    obtain ⟨h1, _⟩ := h
    subst h1
    refine ⟨by omega, ⟨List.range l.length, List.nodup_range l.length,
      fun i hi => List.mem_range.mp hi, (filterMap_get?_range l).symm⟩,
      fun _ => rfl, fun hc => ?_⟩
    omega
  · rw [if_neg hlt] at h
    rcases hsh : SecureRng.shuffle r (List.range l.length) fuel with p | k | _ | e <;>
      rw [hsh] at h <;> simp only [Res.mapOk] at h
    · obtain ⟨indices, r''⟩ := p
      simp only [Res.ok.injEq, Prod.mk.injEq] at h
      obtain ⟨h1, _⟩ := h
      subst h1
      have hperm : List.Perm indices (List.range l.length) :=
        shuffle_ok_perm (by simpa using h64) hsh
      have hnodup : indices.Nodup := (hperm.symm).nodup (List.nodup_range l.length)
      have hlen : indices.length = l.length := by
        simpa using hperm.length_eq
      have hbounds : ∀ i ∈ indices.take count, i < l.length := by
        intro i hi
        have : i ∈ indices := (List.take_sublist count indices).subset hi
        exact List.mem_range.mp (hperm.subset this)
      refine ⟨?_, ⟨indices.take count, (List.take_sublist count indices).nodup hnodup,
        hbounds, rfl⟩, fun hc => absurd hc hlt, fun hc => ?_⟩
      · rw [filterMap_get?_length l _ hbounds, List.length_take, hlen]
      · have htake : indices.take count = indices := by
          rw [hc, ← hlen]
          exact List.take_length indices
        rw [htake]
        exact perm_filterMap_get? hperm
    · exact absurd h (by simp)
    · exact absurd h (by simp)
    · exact absurd h (by simp)

/-- Witness for C5 on a concrete population of three and count two. -/
theorem c5_sample_multiple_witness :
    ([20, 30] : List Nat).length = min 2 ([10, 20, 30] : List Nat).length :=
  (c5_sample_multiple Nat [10, 20, 30] 2 1 rng0 ⟨fun _ => 0, 4⟩ [20, 30]
    (by norm_num) rfl).1

/-! ### Claim C6 -/

/-- Claim C6: every successful shuffle of a sequence is a permutation of
it — identical multiset of elements and identical length. -/
theorem c6_shuffle_perm (α : Type) (l out : List α) (r r' : SecureRng) (fuel : Nat)
    (h64 : l.length < 2 ^ 64) (h : SecureRng.shuffle r l fuel = Res.ok (out, r')) :
    List.Perm out l ∧ out.length = l.length :=
  ⟨shuffle_ok_perm h64 h, (shuffle_ok_perm h64 h).length_eq⟩

/-- Witness for C6 on a concrete three-element list. -/
theorem c6_shuffle_perm_witness :
    List.Perm ([2, 3, 1] : List Nat) [1, 2, 3] ∧
    ([2, 3, 1] : List Nat).length = ([1, 2, 3] : List Nat).length :=
  c6_shuffle_perm Nat [1, 2, 3] [2, 3, 1] rng0 ⟨fun _ => 0, 4⟩ 1 (by norm_num) rfl

/-! ### Claim C7 -/

/-- Claim C7: choice returns no value exactly on the empty slice (as a
plain Ok(None), not a failure), and any successful choice on a non-empty
slice returns Some element of the slice, taken at a sampled index in
0..len. -/
theorem c7_choice (α : Type) (l : List α) (r : SecureRng) (fuel : Nat) :
    (l = [] → SecureRng.choice r l fuel = Res.ok (none, r)) ∧
    (∀ (o : Option α) (r' : SecureRng), SecureRng.choice r l fuel = Res.ok (o, r') →
      (o = none ↔ l = [])) ∧
    (∀ (x : α) (r' : SecureRng), SecureRng.choice r l fuel = Res.ok (some x, r') → x ∈ l) := by
  by_cases hemp : l.isEmpty = true
  · have hl : l = [] := List.isEmpty_iff.mp hemp
    refine ⟨fun _ => ?_, ?_, ?_⟩
    · unfold SecureRng.choice
      rw [if_pos hemp]
    · intro o r' h
      unfold SecureRng.choice at h
      rw [if_pos hemp] at h
      simp only [Res.ok.injEq, Prod.mk.injEq] at h
      obtain ⟨h1, _⟩ := h
      subst h1
      simp [hl]
    · intro x r' h
      unfold SecureRng.choice at h
      rw [if_pos hemp] at h
      simp at h
  · have hl : l ≠ [] := by
      intro hc
      exact hemp (by simp [hc])
    refine ⟨fun hc => absurd hc hl, ?_, ?_⟩
    · intro o r' h
      unfold SecureRng.choice at h
      rw [if_neg hemp] at h
      rcases hres : SecureRng.usize r 0 l.length fuel with p | k | _ | e <;>
        rw [hres] at h <;> simp only [Res.bindOk] at h
      · obtain ⟨i, r''⟩ := p
        rcases hg : l.get? i with _ | x <;> rw [hg] at h
        · simp at h
        · simp only [Res.ok.injEq, Prod.mk.injEq] at h
          obtain ⟨h1, _⟩ := h
          subst h1
          simp [hl]
      · simp at h
      · simp at h
      · simp at h
    · intro x r' h
      unfold SecureRng.choice at h
      rw [if_neg hemp] at h
      rcases hres : SecureRng.usize r 0 l.length fuel with p | k | _ | e <;>
        rw [hres] at h <;> simp only [Res.bindOk] at h
      · obtain ⟨i, r''⟩ := p
        rcases hg : l.get? i with _ | y <;> rw [hg] at h
        · simp at h
        · simp only [Res.ok.injEq, Prod.mk.injEq, Option.some.injEq] at h
          obtain ⟨h1, _⟩ := h
          subst h1
          exact get?_mem_of_some hg
      · simp at h
      · simp at h
      · simp at h

/-- Witness for C7 on a concrete three-element slice. -/
theorem c7_choice_witness :
    ((some 7 : Option Nat) = none ↔ ([7, 8, 9] : List Nat) = []) ∧
    (7 : Nat) ∈ ([7, 8, 9] : List Nat) := by
  constructor
  · exact (c7_choice Nat [7, 8, 9] rng0 1).2.1 (some 7) ⟨fun _ => 0, 2⟩ rfl
  · exact (c7_choice Nat [7, 8, 9] rng0 1).2.2 7 ⟨fun _ => 0, 2⟩ rfl

/-! ### Claim C8 -/

/-- Claim C8: percentage() is exactly sample_range(0, 101); every
successful draw is at most 100, and the inclusive upper bound 100 is
attainable (exhibited by a concrete generator state). -/
theorem c8_percentage (r : SecureRng) (fuel : Nat) :
    SecureRng.percentage r fuel = SecureRng.u8 r 0 101 fuel ∧
    (∀ (v : Nat) (r' : SecureRng), SecureRng.percentage r fuel = Res.ok (v, r') → v ≤ 100) ∧
    (∃ s s' : SecureRng, SecureRng.percentage s 1 = Res.ok (100, s')) := by
  refine ⟨rfl, ?_, ?_⟩
  · intro v r' h
    unfold SecureRng.percentage SecureRng.u8 at h
    have := gen_range_u_ok (Or.inl rfl) (by norm_num : (101 : Nat) < 2 ^ 8) h
    omega
  · exact ⟨⟨fun _ => 4252442868, 0⟩, ⟨fun _ => 4252442868, 1⟩, rfl⟩

/-- Witness for C8 at the concrete generator state that attains 100. -/
theorem c8_percentage_witness : (100 : Nat) ≤ 100 :=
  (c8_percentage ⟨fun _ => 4252442868, 0⟩ 1).2.1 100 ⟨fun _ => 4252442868, 1⟩ rfl

/-! ### Claim C9 -/

/-- Claim C9: get_block_index always returns Ok (the block timestamp), so
the fallback branch of get_transaction_entropy is unreachable: the
8-byte little-endian timestamp is hashed into the transaction entropy on
every default seeding, and reseed reruns exactly the default seeding. -/
theorem c9_block_index_always_ok (env : Env) :
    get_block_index env = Except.ok env.block_timestamp ∧
    get_transaction_entropy env =
      sha256 (env.current_account_id ++ env.predecessor_account_id ++
        toLE8 env.block_timestamp ++ toLE8 env.prepaid_gas) ∧
    generate_secure_seed env =
      generate_seed_with_entropy env
        (sha256 (env.current_account_id ++ env.predecessor_account_id ++
          toLE8 env.block_timestamp ++ toLE8 env.prepaid_gas)) ∧
    (∀ (ks : Keystream) (r : SecureRng), SecureRng.reseed ks env r = SecureRng.new ks env) := by
  refine ⟨rfl, ?_, ?_, fun ks r => rfl⟩
  · simp [get_transaction_entropy, get_block_index, Hasher.update, Hasher.new,
      Hasher.finalize, List.append_assoc]
  · simp [generate_secure_seed, get_transaction_entropy, get_block_index, Hasher.update,
      Hasher.new, Hasher.finalize, List.append_assoc]

/-! ### Claim C10 -/

/-- Claim C10: pick_winner on an empty participant list returns None and
leaves the whole contract state unchanged; a successful pick on a
non-empty list returns Some participant, stores that same participant as
the winner, and leaves the participant list unchanged. -/
theorem c10_pick_winner (ks : Keystream) (env : Env) (c : LotteryContract) (fuel : Nat)
    (out : Option (List Nat)) (c' : LotteryContract)
    (h64 : c.participants.length < 2 ^ 64)
    (h : LotteryContract.pick_winner ks env c fuel = Res.ok (out, c')) :
    (c.participants = [] → out = none ∧ c' = c) ∧
    (c.participants ≠ [] → ∃ x, out = some x ∧ x ∈ c.participants ∧
      c'.winner = some x ∧ c'.participants = c.participants) := by
  unfold LotteryContract.pick_winner at h
  by_cases hemp : c.participants.isEmpty = true
  · rw [if_pos hemp] at h
    simp only [Res.ok.injEq, Prod.mk.injEq] at h
    obtain ⟨h1, h2⟩ := h
    subst h1
    subst h2
    exact ⟨fun _ => ⟨rfl, rfl⟩, fun hc => absurd (List.isEmpty_iff.mp hemp) hc⟩
  · rw [if_neg hemp] at h
    refine ⟨fun hc => absurd hc (by intro hc'; exact hemp (by simp [hc'])), fun _ => ?_⟩
    rcases hres : SecureRng.usize (SecureRng.new ks env) 0 c.participants.length fuel with
      p | k | _ | e <;> rw [hres] at h <;> simp only [Res.mapOk] at h
    · obtain ⟨i, r''⟩ := p
      simp only [Res.ok.injEq, Prod.mk.injEq] at h
      obtain ⟨h1, h2⟩ := h
      have hib : i < c.participants.length := by
        unfold SecureRng.usize at hres
        exact (gen_range_u_ok (Or.inr rfl) h64 hres).2
      obtain ⟨x, hx⟩ : ∃ x, c.participants.get? i = some x := ⟨_, List.get?_eq_get hib⟩
      refine ⟨x, ?_, get?_mem_of_some hx, ?_, ?_⟩
      · rw [← h1, hx]
      · rw [← h2, hx]
      · rw [← h2]
    · exact absurd h (by simp)
    · exact absurd h (by simp)
    · exact absurd h (by simp)

/-- Witness for C10 with two concrete participants. -/
theorem c10_pick_winner_witness :
    ∃ x, (some [65] : Option (List Nat)) = some x ∧ x ∈ ([[65], [66]] : List (List Nat)) ∧
      (⟨[[65], [66]], some [65]⟩ : LotteryContract).winner = some x ∧
      (⟨[[65], [66]], some [65]⟩ : LotteryContract).participants = [[65], [66]] :=
  (c10_pick_winner (fun _ _ => 0) env0 ⟨[[65], [66]], none⟩ 1 (some [65])
    ⟨[[65], [66]], some [65]⟩ (by norm_num) rfl).2 (by simp)

end NearRandom
